import Mathlib

/-!
Shallow embedding of the HBC-Tool container model (hbctool.hbc.hbc86 and
hbctool.hbc.hbc96) and proofs checking the natural-language specification
against it.  Byte buffers are `List Nat` (byte-valued entries), Python dicts
become structures, fallible code returns `Option`.
-/

namespace HBCTool

/-- Little-endian value of a byte list, as `struct.unpack` with formats
`<H`/`<L` computes it. -/
def leNat : List Nat → Nat
  | [] => 0
  | b :: bs => b + 256 * leNat bs

/-- Read `n` bytes from `buf` starting at `start`.  Mirrors
`bytes(buf[start:start+n])` followed by a fixed-size `unpack`: the slice must
supply all `n` bytes and each entry must be a byte, otherwise Python raises
(`struct.error` / `ValueError`), modelled as `none`. -/
def readBytes (buf : List Nat) (start n : Nat) : Option (List Nat) :=
  let s := (buf.drop start).take n
  if s.length = n ∧ s.all (· < 256) then some s else none

/-- Value of `unpack` on a little-endian unsigned field of `n` bytes at `start`. -/
def readLE (buf : List Nat) (start n : Nat) : Option Nat :=
  (readBytes buf start n).map leNat

/-- Modelled from the spec: `memcpy` from `hbctool.util`, which is not under
src/ (only its callers are).  The spec describes the byte I/O primitives as
"in-place byte-range copy with bounds growth": `n` bytes of `src` are copied
into `dest` starting at index `start`, and `dest` grows to cover the write
when needed.  Every call site passes `n = len(src)`. -/
def memcpy (dest src : List Nat) (start n : Nat) : List Nat :=
  (List.range (max dest.length (start + n))).map fun j =>
    if start ≤ j ∧ j < start + n then src.getD (j - start) 0 else dest.getD j 0

/-- Python `x & ~(1 << 5)` on a nonnegative int: clear bit 5, keep all other
bits.  Writing `x = 64*q + 32*b + r` with `r < 32`, the result is `64*q + r`. -/
def clearBit5 (x : Nat) : Nat := 64 * (x / 64) + x % 32

/-- The constant `(1 << 15) - 1`, the 15-bit limit `max_small_size` for the compact
(`SmallFuncHeader`) form of `bytecodeSizeInBytes`. -/
def maxSmallSize : Nat := (1 <<< 15) - 1

/-- UTF-8 encoding of one Unicode code point, as `str.encode("utf-8")`
produces it (1 to 4 bytes). -/
def utf8EncodeChar (c : Nat) : List Nat :=
  if c < 0x80 then [c]
  else if c < 0x800 then [0xc0 ||| (c >>> 6), 0x80 ||| (c &&& 0x3f)]
  else if c < 0x10000 then
    [0xe0 ||| (c >>> 12), 0x80 ||| ((c >>> 6) &&& 0x3f), 0x80 ||| (c &&& 0x3f)]
  else
    [0xf0 ||| (c >>> 18), 0x80 ||| ((c >>> 12) &&& 0x3f),
     0x80 ||| ((c >>> 6) &&& 0x3f), 0x80 ||| (c &&& 0x3f)]

/-- Python `val.encode("utf-8")` for a string given as its list of code points. -/
def utf8Encode (s : List Nat) : List Nat := (s.map utf8EncodeChar).flatten

/-- Value of an ASCII hex digit, as `bytes.fromhex` accepts it. -/
def hexDigitVal (c : Nat) : Option Nat :=
  if 48 ≤ c ∧ c ≤ 57 then some (c - 48)
  else if 97 ≤ c ∧ c ≤ 102 then some (c - 87)
  else if 65 ≤ c ∧ c ≤ 70 then some (c - 55)
  else none

/-- Python `bytes.fromhex(val)` for a string given as its list of code points
(strict digit pairs; the space-skipping Python additionally allows is not
exercised by any claim). -/
def bytesFromHex : List Nat → Option (List Nat)
  | [] => some []
  | [_] => none
  | a :: b :: rest =>
    match hexDigitVal a, hexDigitVal b, bytesFromHex rest with
    | some da, some db, some r => some ((16 * da + db) :: r)
    | _, _, _ => none

/-- The compact-slot snapshot stored under the `"small"` key of an overflowed
function header (same field set the snapshot loop in `setFunction` copies). -/
structure SmallFuncHeader where
  offset : Nat
  paramCount : Nat
  bytecodeSizeInBytes : Nat
  functionName : Nat
  infoOffset : Nat
  frameSize : Nat
  environmentSize : Nat
  highestReadCacheIndex : Nat
  highestWriteCacheIndex : Nat
  flags : Nat
deriving DecidableEq, Repr

/-- A parsed function header dict.  The parser materialises every field, so
`flags` is plain `Nat` (the source's `"flags" not in functionHeader` /
`.get("flags", 0)` guards are identities on such headers); the optional
`"small"` sub-record is `Option`. -/
structure FunctionHeader where
  offset : Nat
  paramCount : Nat
  frameSize : Nat
  environmentSize : Nat
  bytecodeSizeInBytes : Nat
  functionName : Nat
  infoOffset : Nat
  highestReadCacheIndex : Nat
  highestWriteCacheIndex : Nat
  flags : Nat
  small : Option SmallFuncHeader
deriving DecidableEq, Repr

structure StringTableEntry where
  isUTF16 : Bool
  offset : Nat
  length : Nat
deriving DecidableEq, Repr

structure StringTableOverflowEntry where
  offset : Nat
  length : Nat
deriving DecidableEq, Repr

/-- The `obj["header"]` dict (the fields the claims touch). -/
structure FileHeader where
  functionCount : Nat
  stringCount : Nat
  arrayBufferSize : Nat
  objKeyBufferSize : Nat
  objValueBufferSize : Nat
deriving DecidableEq, Repr

/-- The parsed container `obj`. -/
structure HBCObj where
  header : FileHeader
  functionHeaders : List FunctionHeader
  stringTableEntries : List StringTableEntry
  stringTableOverflowEntries : List StringTableOverflowEntry
  stringStorage : List Nat
  instOffset : Nat
  inst : List Nat
  arrayBuffer : List Nat
  objKeyBuffer : List Nat
  objValueBuffer : List Nat
deriving DecidableEq, Repr

/-- The `func` tuple passed to `setFunction`, minus the instruction part
(which is supplied separately as the assembled byte list `bc`).  `name` is
carried because `setFunction` unpacks it, though it never uses it. -/
structure FuncPayload where
  name : String
  paramCount : Nat
  registerCount : Nat
  symbolCount : Nat
deriving DecidableEq, Repr

/-! ### Serialized-literal (SLP) tag constants, identical in hbc86 and hbc96 -/

def NullTag : Nat := 0
def TrueTag : Nat := 1 <<< 4
def FalseTag : Nat := 2 <<< 4
def NumberTag : Nat := 3 <<< 4
def LongStringTag : Nat := 4 <<< 4
def ShortStringTag : Nat := 5 <<< 4
def ByteStringTag : Nat := 6 <<< 4
def IntegerTag : Nat := 7 <<< 4
def TagMask : Nat := 0x70

/-- A decoded SLP payload value.  `NumberTag` payloads are kept as their raw
8 little-endian bytes: no claim needs the IEEE-754 reading, which a shallow
embedding does not model. -/
inductive SLPValue where
  | str : Nat → SLPValue
  | number : List Nat → SLPValue
  | integer : Nat → SLPValue
  | null : SLPValue
  | boolean : Bool → SLPValue
deriving DecidableEq, Repr

/-- The decoder `_checkBufferTag(buf, iid)`: returns `(count, tag-kind)`.  Out-of-range
reads of `buf[iid]` / `buf[iid + 1]` raise `IndexError` in Python, modelled
as `none`. -/
def checkBufferTag (buf : List Nat) (iid : Nat) : Option (Nat × Nat) :=
  match buf.get? iid with
  | none => none
  | some keyTag =>
    if keyTag &&& 0x80 ≠ 0 then
      match buf.get? (iid + 1) with
      | none => none
      | some ext => some (((keyTag &&& 0x0f) <<< 8) ||| ext, keyTag &&& TagMask)
    else
      some (keyTag &&& 0x0f, keyTag &&& TagMask)

/-- The `ind = 2 if tag[0] > 0x0f else 1` line shared by `getArray`,
`getObjKey` and `getObjValue`: how many header bytes the payload loop skips,
chosen from the decoded element count. -/
def groupPayloadStart (cnt : Nat) : Nat := if 0x0f < cnt then 2 else 1

/-- The decoder `_SLPToString(tag, buf, iid, ind)`: decode one payload of kind `tag` at
`buf[iid + ind]`, returning the kind label, the value and the advanced `ind`.
Failing reads (`IndexError` / `struct.error`) are `none`. -/
def SLPToString (tag : Nat) (buf : List Nat) (iid ind : Nat) :
    Option (String × SLPValue × Nat) :=
  let start := iid + ind
  if tag = ByteStringTag then
    match buf.get? start with
    | none => none
    | some b => some ("String", SLPValue.str b, ind + 1)
  else if tag = ShortStringTag then
    (readLE buf start 2).map fun v => ("String", SLPValue.str v, ind + 2)
  else if tag = LongStringTag then
    (readLE buf start 4).map fun v => ("String", SLPValue.str v, ind + 4)
  else if tag = NumberTag then
    (readBytes buf start 8).map fun bs => ("Number", SLPValue.number bs, ind + 8)
  else if tag = IntegerTag then
    (readLE buf start 4).map fun v => ("Integer", SLPValue.integer v, ind + 4)
  else if tag = NullTag then some ("Null", SLPValue.null, ind)
  else if tag = TrueTag then some ("Boolean", SLPValue.boolean true, ind)
  else if tag = FalseTag then some ("Boolean", SLPValue.boolean false, ind)
  else some ("Empty", SLPValue.null, ind)

/-- The `for _ in range(tag[0])` payload loop of the three SLP accessors:
`t` starts as `None` (Python) and is overwritten by every iteration's label;
values are appended in order. -/
def SLPLoop (tag : Nat) (buf : List Nat) (iid : Nat) :
    Nat → Nat → Option String → List SLPValue →
    Option (Option String × List SLPValue)
  | 0, _, t, acc => some (t, acc)
  | n + 1, ind, _, acc =>
    match SLPToString tag buf iid ind with
    | none => none
    | some (t', v, ind') => SLPLoop tag buf iid n ind' (some t') (acc ++ [v])

/-- The algorithm shared verbatim by `getArray`, `getObjKey` and
`getObjValue` in both hbc86 and hbc96: bounds-check the id against the
buffer-size header field, decode the tag, then run the payload loop. -/
def taggedGroup (buf : List Nat) (size iid : Nat) :
    Option (Option String × List SLPValue) :=
  if iid < size then
    match checkBufferTag buf iid with
    | none => none
    | some (cnt, tag) => SLPLoop tag buf iid cnt (groupPayloadStart cnt) none []
  else none

/-- The labels §4.2 of the spec lists as the possible `kindLabel` results. -/
def slpKindLabels : List String :=
  ["String", "Number", "Integer", "Null", "Boolean", "Empty"]

/-! ### setFunction

The overflow bookkeeping of `setFunction`.  The snapshot step is the same
loop in hbc86 (lines 113-127) and hbc96 (lines 106-118): if no `"small"`
record exists yet, copy the current header fields (the `paramCount` /
`frameSize` / `environmentSize` updates and the `flags |= 1 << 5` have
already happened at this point), then overwrite the snapshot's
`bytecodeSizeInBytes` with `min(original_size, max_small_size)` and its
`flags` with the updated flags. -/

/-- The `"small"` record after the overflow branch: kept if present, else
snapshot of `fh1` (the already-updated header) with the two overwrites;
`original` is the pre-call `bytecodeSizeInBytes`, `flags1` the updated
flags. -/
def smallAfterOverflow (fh1 : FunctionHeader) (original flags1 : Nat) :
    Option SmallFuncHeader :=
  match fh1.small with
  | some s => some s
  | none => some {
      offset := fh1.offset
      paramCount := fh1.paramCount
      bytecodeSizeInBytes := min original maxSmallSize
      functionName := fh1.functionName
      infoOffset := fh1.infoOffset
      frameSize := fh1.frameSize
      environmentSize := fh1.environmentSize
      highestReadCacheIndex := fh1.highestReadCacheIndex
      highestWriteCacheIndex := fh1.highestWriteCacheIndex
      flags := flags1 }

/-- The field updates `setFunction` performs first (lines 72-74 in both
versions): `paramCount`, `frameSize := registerCount`,
`environmentSize := symbolCount`; `functionName` is left alone (the update
is commented out in the source). -/
def paramUpdate (fh : FunctionHeader) (p : FuncPayload) : FunctionHeader :=
  { fh with
    paramCount := p.paramCount
    frameSize := p.registerCount
    environmentSize := p.symbolCount }

namespace HBC86

/-- The header produced by `HBC86.setFunction`'s size/overflow logic (lines
100-147) from the already-field-updated header `fh1` and the new bytecode
size `new`; `original_size` is `fh1.bytecodeSizeInBytes` (the field updates
never touch it).  The source's `if "flags" not in functionHeader` /
`if "flags" in functionHeader` guards are identities on parsed headers. -/
def newHeader (fh1 : FunctionHeader) (new : Nat) : FunctionHeader :=
  let original := fh1.bytecodeSizeInBytes
  if maxSmallSize < new then
    let flags1 := fh1.flags ||| (1 <<< 5)
    { fh1 with
      flags := flags1
      small := smallAfterOverflow fh1 original flags1
      bytecodeSizeInBytes := new }
  else
    if new ≤ original ∨ original ≤ maxSmallSize then
      { fh1 with
        bytecodeSizeInBytes := new
        flags := clearBit5 fh1.flags
        -- `if "small" in functionHeader and new_size <= max_small_size: del`
        small := if fh1.small.isSome ∧ new ≤ maxSmallSize then none else fh1.small }
    else
      -- dead in Python too: requires new > original and original > max while
      -- new ≤ max
      { fh1 with bytecodeSizeInBytes := new }

/-- Everything `HBC86.setFunction` does after the bytecode `bc` is known
(source lines 79-150), given the container `o1` whose header `fid` is
already the field-updated `fh1`. -/
def setFunctionCore (o1 : HBCObj) (fid : Nat) (fh1 : FunctionHeader)
    (bc : List Nat) : HBCObj :=
  let start := fh1.offset - o1.instOffset
  let new := bc.length
  -- `if start + new_size > len(inst): inst.extend([0] * extension_needed)`
  let inst1 := if o1.inst.length < start + new then
      o1.inst ++ List.replicate (start + new - o1.inst.length) 0
    else o1.inst
  { o1 with
    functionHeaders := o1.functionHeaders.set fid (newHeader fh1 new)
    inst := memcpy inst1 bc start bc.length }

/-- Run `HBC86.setFunction` under Python exception semantics: the pair is
(did the call complete, the container afterwards).  The out-of-range assert
and the `functionHeaders[fid]` lookup fail before any mutation; the
`paramCount` / `frameSize` / `environmentSize` writes (lines 72-74) happen
before the assemble step, so when `asm = none` (the external `assemble`
raised, `disasm=True`) they persist.  `asm = some bc` covers both a
successful assemble and the `disasm=False` path (`bc = insts`). -/
def setFunctionRun (o : HBCObj) (fid : Nat) (p : FuncPayload)
    (asm : Option (List Nat)) : Bool × HBCObj :=
  if fid < o.header.functionCount then
    match o.functionHeaders.get? fid with
    | none => (false, o)
    | some fh =>
      let fh1 := paramUpdate fh p
      let o1 := { o with functionHeaders := o.functionHeaders.set fid fh1 }
      match asm with
      | none => (false, o1)
      | some bc => (true, setFunctionCore o1 fid fh1 bc)
  else (false, o)

/-- A completed `HBC86.setFunction` call with assembled bytecode `bc`. -/
def setFunction (o : HBCObj) (fid : Nat) (p : FuncPayload) (bc : List Nat) :
    Option HBCObj :=
  match setFunctionRun o fid p (some bc) with
  | (true, o') => some o'
  | (false, _) => none

def getArray (o : HBCObj) (aid : Nat) : Option (Option String × List SLPValue) :=
  taggedGroup o.arrayBuffer o.header.arrayBufferSize aid

def getObjKey (o : HBCObj) (kid : Nat) : Option (Option String × List SLPValue) :=
  taggedGroup o.objKeyBuffer o.header.objKeyBufferSize kid

def getObjValue (o : HBCObj) (vid : Nat) : Option (Option String × List SLPValue) :=
  taggedGroup o.objValueBuffer o.header.objValueBufferSize vid

end HBC86

namespace HBC96

/-- The header produced by `HBC96.setFunction`'s size/overflow logic (lines
101-124).  Unlike hbc86, the non-overflow branch only writes the new size:
it neither clears the overflow flag nor deletes `"small"`. -/
def newHeader (fh1 : FunctionHeader) (new : Nat) : FunctionHeader :=
  let original := fh1.bytecodeSizeInBytes
  if maxSmallSize < new then
    let flags1 := fh1.flags ||| (1 <<< 5)
    { fh1 with
      flags := flags1
      small := smallAfterOverflow fh1 original flags1
      bytecodeSizeInBytes := new }
  else
    { fh1 with bytecodeSizeInBytes := new }

/-- Everything `HBC96.setFunction` does after `bc` is known (lines 79-126).
The instruction-buffer extension only runs when `len(bc)` exceeds the
original `bytecodeSizeInBytes` (line 94). -/
def setFunctionCore (o1 : HBCObj) (fid : Nat) (fh1 : FunctionHeader)
    (bc : List Nat) : HBCObj :=
  let start := fh1.offset - o1.instOffset
  let original := fh1.bytecodeSizeInBytes
  let inst1 := if original < bc.length then
      (if o1.inst.length < start + bc.length then
        o1.inst ++ List.replicate (start + bc.length - o1.inst.length) 0
      else o1.inst)
    else o1.inst
  { o1 with
    functionHeaders := o1.functionHeaders.set fid (newHeader fh1 bc.length)
    inst := memcpy inst1 bc start bc.length }

/-- Run `HBC96.setFunction` under Python exception semantics; see
`HBC86.setFunctionRun`. -/
def setFunctionRun (o : HBCObj) (fid : Nat) (p : FuncPayload)
    (asm : Option (List Nat)) : Bool × HBCObj :=
  if fid < o.header.functionCount then
    match o.functionHeaders.get? fid with
    | none => (false, o)
    | some fh =>
      let fh1 := paramUpdate fh p
      let o1 := { o with functionHeaders := o.functionHeaders.set fid fh1 }
      match asm with
      | none => (false, o1)
      | some bc => (true, setFunctionCore o1 fid fh1 bc)
  else (false, o)

/-- A completed `HBC96.setFunction` call with assembled bytecode `bc`. -/
def setFunction (o : HBCObj) (fid : Nat) (p : FuncPayload) (bc : List Nat) :
    Option HBCObj :=
  match setFunctionRun o fid p (some bc) with
  | (true, o') => some o'
  | (false, _) => none

def getArray (o : HBCObj) (aid : Nat) : Option (Option String × List SLPValue) :=
  taggedGroup o.arrayBuffer o.header.arrayBufferSize aid

def getObjKey (o : HBCObj) (kid : Nat) : Option (Option String × List SLPValue) :=
  taggedGroup o.objKeyBuffer o.header.objKeyBufferSize kid

def getObjValue (o : HBCObj) (vid : Nat) : Option (Option String × List SLPValue) :=
  taggedGroup o.objValueBuffer o.header.objValueBufferSize vid

end HBC96

/-! ### setString (identical in hbc86 and hbc96) -/

/-- Resolve a string-table entry's `(offset, length)`; `invalidLen` is
`INVALID_LENGTH`.  Modelled from the spec: `INVALID_LENGTH` is defined by
the per-version `parser` module, which is not under src/; the spec calls it
"a version-specific sentinel", so it is kept as a parameter.  The source
test is `length >= INVALID_LENGTH`, in which case `offset` indexes the
overflow table (a bad index raises, modelled as `none`). -/
def resolveSlot (invalidLen : Nat) (o : HBCObj) (e : StringTableEntry) :
    Option (Nat × Nat) :=
  if invalidLen ≤ e.length then
    match o.stringTableOverflowEntries.get? e.offset with
    | none => none
    | some ov => some (ov.offset, ov.length)
  else some (e.offset, e.length)

/-- The mutator `setString(sid, val)`, the same code in hbc86 (lines 177-202) and hbc96
(lines 153-178).  `val` is the Python string as its list of code points.
For a UTF-16 slot it is parsed as hex (`l = len(s)//2` code units); for a
byte slot `l = len(val)` counts characters while `s = val.encode("utf-8")`
is what gets copied.  The final assert rejects `l > length`; the copy is
`memcpy(stringStorage, s, offset, len(s))`. -/
def setStringCore (invalidLen : Nat) (o : HBCObj) (sid : Nat)
    (val : List Nat) : Option HBCObj :=
  if sid < o.header.stringCount then
    match o.stringTableEntries.get? sid with
    | none => none
    | some e =>
      match resolveSlot invalidLen o e with
      | none => none
      | some (off, len) =>
        let enc : Option (List Nat × Nat) :=
          if e.isUTF16 then (bytesFromHex val).map (fun s => (s, s.length / 2))
          else some (utf8Encode val, val.length)
        match enc with
        | none => none
        | some (s, l) =>
          if l ≤ len then
            some { o with stringStorage := memcpy o.stringStorage s off s.length }
          else none
  else none

def HBC86.setString (invalidLen : Nat) (o : HBCObj) (sid : Nat)
    (val : List Nat) : Option HBCObj :=
  setStringCore invalidLen o sid val

def HBC96.setString (invalidLen : Nat) (o : HBCObj) (sid : Nat)
    (val : List Nat) : Option HBCObj :=
  setStringCore invalidLen o sid val

/-! ### Mutation sequences and the overflow invariant -/

/-- One mutator call.  `setFunc` carries the outcome of the external
assemble step (`none` = it raised; `some bc` also covers `disasm=False`). -/
inductive Op where
  | setFunc (fid : Nat) (p : FuncPayload) (asm : Option (List Nat))
  | setStr (sid : Nat) (val : List Nat)
deriving DecidableEq

/-- Apply one mutator to an hbc86 container; a raising call leaves exactly
the mutations it had already performed (state threading of
`setFunctionRun`), and a raising `setString` leaves the container unchanged
(its only mutation is the final `memcpy`). -/
def HBC86.step (invalidLen : Nat) (o : HBCObj) : Op → HBCObj
  | Op.setFunc fid p asm => (HBC86.setFunctionRun o fid p asm).2
  | Op.setStr sid v => (HBC86.setString invalidLen o sid v).getD o

/-- Apply one mutator to an hbc96 container. -/
def HBC96.step (invalidLen : Nat) (o : HBCObj) : Op → HBCObj
  | Op.setFunc fid p asm => (HBC96.setFunctionRun o fid p asm).2
  | Op.setStr sid v => (HBC96.setString invalidLen o sid v).getD o

/-- Invariants 3 and 4 of the spec for one function header: the overflow
flag (bit 5) is set iff `small` is present, and a present `small` has a
15-bit `bytecodeSizeInBytes` and the same `flags` as the header. -/
def headerInvB (fh : FunctionHeader) : Bool :=
  (fh.flags.testBit 5 == fh.small.isSome) &&
  (match fh.small with
   | none => true
   | some s => decide (s.bytecodeSizeInBytes ≤ maxSmallSize) && (s.flags == fh.flags))

/-- The container-wide overflow invariant. -/
def InvB (o : HBCObj) : Bool := o.functionHeaders.all headerInvB

/-- The function header seen after an optional mutation result, used to
state claims without binding the whole result container. -/
def headerAfter (r : Option HBCObj) (fid : Nat) : Option FunctionHeader :=
  r.bind fun o => o.functionHeaders.get? fid

/-! ### Arithmetic and list lemmas -/

theorem testBit5_lor : ∀ x : Nat, (x ||| 1 <<< 5).testBit 5 = true := by
  intro x
  rw [Nat.testBit_or]
  simp
  right
  decide

theorem testBit_32_ne {i : Nat} (hne : i ≠ 5) : Nat.testBit 32 i = false := by
  show Nat.testBit (2 ^ 5) i = false
  rw [Nat.testBit_two_pow]
  simpa using fun h => hne h.symm

theorem lor32_of_testBit {x : Nat} (h : x.testBit 5 = true) : x ||| 1 <<< 5 = x := by
  apply Nat.eq_of_testBit_eq
  intro i
  rw [Nat.testBit_or]
  rcases eq_or_ne i 5 with rfl | hne
  · simp [h]
  · simp [testBit_32_ne hne]

theorem lor32_lor32 (x : Nat) : (x ||| 1 <<< 5) ||| 1 <<< 5 = x ||| 1 <<< 5 := by
  rw [Nat.lor_assoc, Nat.or_self]

/-- The same, in the numeral form `simp` normalises to. -/
theorem lor32_twice (x : Nat) : x ||| 32 ||| 32 = x ||| 32 := by
  rw [Nat.lor_assoc, Nat.or_self]

theorem clearBit5_testBit (x : Nat) : (clearBit5 x).testBit 5 = false := by
  rw [clearBit5, Nat.testBit_to_div_mod]
  simp
  omega

theorem clearBit5_idem (x : Nat) : clearBit5 (clearBit5 x) = clearBit5 x := by
  unfold clearBit5
  omega

theorem length_memcpy (dest src : List Nat) (start n : Nat) :
    (memcpy dest src start n).length = max dest.length (start + n) := by
  simp [memcpy]

theorem getElem?_memcpy (dest src : List Nat) (start n j : Nat) :
    (memcpy dest src start n)[j]? =
      if j < max dest.length (start + n) then
        some (if start ≤ j ∧ j < start + n then src.getD (j - start) 0
              else dest.getD j 0)
      else none := by
  unfold memcpy
  rcases lt_or_le j (max dest.length (start + n)) with h | h
  · rw [List.getElem?_map, List.getElem?_range h]
    simp [h]
  · rw [List.getElem?_map, List.getElem?_eq_none (by simpa using h)]
    simp [Nat.not_lt.mpr h]

/-- Re-running the same copy over its own result changes nothing: the buffer
already covers the write and the written range already holds `src`. -/
theorem memcpy_idem (dest src : List Nat) (start n : Nat) :
    memcpy (memcpy dest src start n) src start n = memcpy dest src start n := by
  apply List.ext_getElem?
  intro j
  rw [getElem?_memcpy, getElem?_memcpy, length_memcpy,
    max_eq_left (le_max_right dest.length (start + n))]
  rcases lt_or_le j (max dest.length (start + n)) with h | h
  · simp only [if_pos h]
    by_cases hw : start ≤ j ∧ j < start + n
    · simp [hw]
    · simp only [if_neg hw]
      rw [List.getD_eq_getElem?_getD, getElem?_memcpy, if_pos h, if_neg hw,
        List.getD_eq_getElem?_getD]
      simp
  · simp [Nat.not_lt.mpr h]

theorem all_set {p : FunctionHeader → Bool} {l : List FunctionHeader}
    {a : FunctionHeader} (i : Nat) (hl : l.all p = true) (ha : p a = true) :
    (l.set i a).all p = true := by
  rw [List.all_eq_true] at hl ⊢
  intro x hx
  rcases List.mem_or_eq_of_mem_set hx with hmem | rfl
  · exact hl x hmem
  · exact ha

theorem eraseIdx_set {α : Type} :
    ∀ (l : List α) (i : Nat) (a : α), (l.set i a).eraseIdx i = l.eraseIdx i
  | [], _, _ => rfl
  | _ :: _, 0, _ => rfl
  | x :: tl, i + 1, a => by
    simp only [List.set, List.eraseIdx]
    rw [eraseIdx_set tl i a]

/-! ### Concrete fixtures (small counterparts of the run_tests.py mock) -/

/-- An all-zero, non-overflowed function header at `offset = instOffset = 0`. -/
def baseFH : FunctionHeader :=
  { offset := 0, paramCount := 0, frameSize := 0, environmentSize := 0,
    bytecodeSizeInBytes := 0, functionName := 0, infoOffset := 0,
    highestReadCacheIndex := 0, highestWriteCacheIndex := 0, flags := 0,
    small := none }

/-- A minimal one-function, one-string container. -/
def baseObj : HBCObj :=
  { header := { functionCount := 1, stringCount := 1, arrayBufferSize := 0,
                objKeyBufferSize := 0, objValueBufferSize := 0 },
    functionHeaders := [baseFH],
    stringTableEntries := [{ isUTF16 := false, offset := 0, length := 4 }],
    stringTableOverflowEntries := [],
    stringStorage := [116, 101, 115, 116],
    instOffset := 0, inst := [],
    arrayBuffer := [], objKeyBuffer := [], objValueBuffer := [] }

/-- Fixture: `baseObj` with the given array buffer (and matching
`header.arrayBufferSize`, invariant 6). -/
def arrObj (buf : List Nat) : HBCObj :=
  { baseObj with
    header := { baseObj.header with arrayBufferSize := buf.length }
    arrayBuffer := buf }

/-- The compact snapshot of an already-overflowed fixture header. -/
def ovSmall : SmallFuncHeader :=
  { offset := 0, paramCount := 0, bytecodeSizeInBytes := 100, functionName := 0,
    infoOffset := 0, frameSize := 0, environmentSize := 0,
    highestReadCacheIndex := 0, highestWriteCacheIndex := 0, flags := 32 }

/-- A container whose single function is in the overflowed state a 40000-byte
`setFunction` leaves behind (the state of run_tests.py's
`test_overflow_flag_clearing` before its second call): overflow flag set,
`small` present, `bytecodeSizeInBytes = 40000`. -/
def ovObj : HBCObj :=
  { baseObj with
    functionHeaders := [{ baseFH with
      bytecodeSizeInBytes := 40000
      flags := 32
      small := some ovSmall }] }

/-- A container whose single function header carries recognisable
`paramCount/frameSize/environmentSize` values. -/
def c5Obj : HBCObj :=
  { baseObj with
    functionHeaders := [{ baseFH with
      paramCount := 1
      frameSize := 2
      environmentSize := 3 }] }

/-! ### Claim theorems -/

/-- Claim C1 (status: code_bug).  The claim says that for BOTH versions a
`setFunction` whose bytecode fits in 15 bits leaves `bytecodeSizeInBytes =
len(bc)`, bit 5 of `flags` cleared and no `small` record.  `HBC86` does
this, but `HBC96.setFunction`'s non-overflow branch only writes the size:
starting from the overflowed state `ovObj` (exactly what run_tests.py's
`test_overflow_flag_clearing` builds before its second call), a 100-byte
edit leaves bit 5 set and `small` present, so that repository test fails.
The evaluation below shows hbc96 returning
`(size, bit5, small present) = (100, true, true)` where the repository's
own test asserts `(100, false, false)` — which is what hbc86 produces. -/
theorem claim_C1 :
    (headerAfter (HBC96.setFunction ovObj 0 ⟨"f", 0, 0, 0⟩ (List.replicate 100 0x11)) 0).map
        (fun h => (h.bytecodeSizeInBytes, h.flags.testBit 5, h.small.isSome)) =
      some (100, true, true) ∧
    (headerAfter (HBC86.setFunction ovObj 0 ⟨"f", 0, 0, 0⟩ (List.replicate 100 0x11)) 0).map
        (fun h => (h.bytecodeSizeInBytes, h.flags.testBit 5, h.small.isSome)) =
      some (100, false, false) := by
  constructor
  · rfl
  · rfl

/-- Claim C3 counterexample.  The tag byte `0xD0` has bit 7 set, so per the
claim the element count comes from the 12-bit extension (it does: count 2)
AND payload decoding should start two bytes after the group offset.  It
does not: `getArray` chooses the start from `count > 0x0f`, so with count
2 decoding starts ONE byte after the offset and re-reads the extension
byte.  Decoding from offset+2 would give the values `[10, 20]`; the code
returns `[2562, 5120]`. -/
theorem claim_C3_counterexample :
    checkBufferTag [0xD0, 2, 10, 0, 20, 0] 0 = some (2, ShortStringTag) ∧
    Nat.testBit 0xD0 7 = true ∧
    HBC86.getArray (arrObj [0xD0, 2, 10, 0, 20, 0]) 0 =
      some (some "String", [SLPValue.str 2562, SLPValue.str 5120]) ∧
    HBC86.getArray (arrObj [0xD0, 2, 10, 0, 20, 0]) 0 ≠
      some (some "String", [SLPValue.str 10, SLPValue.str 20]) := by
  refine ⟨rfl, rfl, rfl, ?_⟩
  decide

/-- Claim C5 (status: code_bug).  `setFunction` writes `paramCount`,
`frameSize` and `environmentSize` into the header (lines 72-74) before the
external `assemble` runs (line 88, `disasm=True`), so a failing assemble
leaves those three fields mutated: the call is not all-or-nothing as §7 of
the spec requires.  Evaluated here for both versions at a concrete
container whose header holds `(1, 2, 3)` and a payload carrying
`(9, 8, 7)`: the failed call (`asm = none`) leaves `(9, 8, 7)` behind. -/
theorem claim_C5 :
    (HBC86.setFunctionRun c5Obj 0 ⟨"f", 9, 8, 7⟩ none).1 = false ∧
    (HBC86.setFunctionRun c5Obj 0 ⟨"f", 9, 8, 7⟩ none).2 ≠ c5Obj ∧
    ((HBC86.setFunctionRun c5Obj 0 ⟨"f", 9, 8, 7⟩ none).2.functionHeaders.map
        fun h => (h.paramCount, h.frameSize, h.environmentSize)) = [(9, 8, 7)] ∧
    (HBC96.setFunctionRun c5Obj 0 ⟨"f", 9, 8, 7⟩ none).1 = false ∧
    (HBC96.setFunctionRun c5Obj 0 ⟨"f", 9, 8, 7⟩ none).2 ≠ c5Obj ∧
    ((HBC96.setFunctionRun c5Obj 0 ⟨"f", 9, 8, 7⟩ none).2.functionHeaders.map
        fun h => (h.paramCount, h.frameSize, h.environmentSize)) = [(9, 8, 7)] := by
  refine ⟨rfl, by decide, rfl, rfl, by decide, rfl⟩

/-- Claim C6 counterexample.  On the spec's literal scenario-6 buffer the
tag byte `0x77` masks to `0x77 & 0x70 = 0x70 = IntegerTag` (ShortStringTag
would be `0x57`), so the seven payloads are read as 4-byte integers; the
fourth read needs bytes 13..16 of a 15-byte buffer and raises
`struct.error`.  `getArray(0)` therefore fails instead of returning
`("String", [1..7])`. -/
theorem claim_C6_counterexample :
    HBC86.getArray (arrObj [0x77, 1, 0, 2, 0, 3, 0, 4, 0, 5, 0, 6, 0, 7, 0]) 0 = none ∧
    HBC86.getArray (arrObj [0x77, 1, 0, 2, 0, 3, 0, 4, 0, 5, 0, 6, 0, 7, 0]) 0 ≠
      some (some "String",
        [SLPValue.str 1, SLPValue.str 2, SLPValue.str 3, SLPValue.str 4,
         SLPValue.str 5, SLPValue.str 6, SLPValue.str 7]) := by
  refine ⟨rfl, ?_⟩
  decide

/-- Claim C6 as amended: the intended ShortStringTag tag byte for count 7
is `0x57` (`(5 << 4) | 7`), and with it the scenario holds: the seven
2-byte little-endian payloads decode to string indices 1..7 with kind label
`"String"`. -/
theorem claim_C6 :
    HBC86.getArray (arrObj [0x57, 1, 0, 2, 0, 3, 0, 4, 0, 5, 0, 6, 0, 7, 0]) 0 =
      some (some "String",
        [SLPValue.str 1, SLPValue.str 2, SLPValue.str 3, SLPValue.str 4,
         SLPValue.str 5, SLPValue.str 6, SLPValue.str 7]) := rfl

/-- Claim C8 counterexample.  A zero-count group (`tag = 0x00`: NullTag,
count 0, in bounds) decodes successfully, but the loop never runs, so the
kind label returned is Python's `None` — not one of the six strings the
claim (which explicitly includes zero-count groups) allows. -/
theorem claim_C8_counterexample :
    HBC86.getArray (arrObj [0x00]) 0 = some (none, []) ∧
    (none : Option String) ∉ slpKindLabels.map some := by
  refine ⟨rfl, ?_⟩
  decide

/-- Python `keyTag & 0x80` is nonzero exactly when bit 7 is set. -/
theorem and128_ne_iff (b : Nat) : (b &&& 0x80 ≠ 0) ↔ b.testBit 7 = true := by
  show b &&& 2 ^ 7 ≠ 0 ↔ _
  rw [Nat.and_two_pow]
  cases h : b.testBit 7 <;> simp

/-- The low nibble is at most 15. -/
theorem and15_lt (b : Nat) : b &&& 0x0f < 16 :=
  Nat.and_lt_two_pow b (show (15 : Nat) < 2 ^ 4 by norm_num)

/-- Claim C3, amended.  For every accessor group decode (the three SLP
accessors of both versions are `taggedGroup` applications): the element
count is the 12-bit `((tag & 0x0F) << 8) | buf[iid+1]` when bit 7 of the
tag byte is set and `tag & 0x0F` otherwise (as claimed), but the number of
header bytes the payload loop skips is chosen by `count > 0x0F`, not by
bit 7: decoding starts two bytes after the group offset iff the decoded
count exceeds 15, and when bit 7 is clear it always starts one byte after.
(The original claim's "bit 7 set implies payload decoding starts two bytes
after" fails when an extension byte encodes a count of at most 15; see the
counterexample.) -/
theorem claim_C3 : ∀ (buf : List Nat) (iid b cnt tag : Nat),
    buf.get? iid = some b →
    checkBufferTag buf iid = some (cnt, tag) →
    tag = b &&& 0x70 ∧
    (b.testBit 7 = true → cnt = ((b &&& 0x0f) <<< 8) ||| buf.getD (iid + 1) 0) ∧
    (b.testBit 7 = false → cnt = b &&& 0x0f ∧ groupPayloadStart cnt = 1) ∧
    (groupPayloadStart cnt = 2 ↔ 0x0f < cnt) := by
  intro buf iid b cnt tag hb htag
  unfold checkBufferTag at htag
  rw [hb] at htag
  simp only at htag
  by_cases h7 : b.testBit 7 = true
  · rw [if_pos ((and128_ne_iff b).mpr h7)] at htag
    cases hext : buf.get? (iid + 1) with
    | none => rw [hext] at htag; exact absurd htag (by simp)
    | some ext =>
      rw [hext] at htag
      have hcnt : cnt = ((b &&& 0x0f) <<< 8) ||| ext := by
        have := htag
        simp only [Option.some.injEq, Prod.mk.injEq] at this
        exact this.1.symm
      have htg : tag = b &&& TagMask := by
        simp only [Option.some.injEq, Prod.mk.injEq] at htag
        exact htag.2.symm
      refine ⟨htg, fun _ => ?_, fun h => absurd h7 (by simp [h]), ?_⟩
      · rw [hcnt, List.getD_eq_getElem?_getD, ← List.get?_eq_getElem?, hext]
        rfl
      · unfold groupPayloadStart
        split <;> simp_all
  · have h7f : b.testBit 7 = false := by simpa using h7
    rw [if_neg (by simp [and128_ne_iff, h7f])] at htag
    simp only [Option.some.injEq, Prod.mk.injEq] at htag
    obtain ⟨hcnt, htg⟩ := htag
    have hlt : cnt ≤ 0x0f := by
      rw [← hcnt]
      have := and15_lt b
      omega
    refine ⟨htg.symm, fun h => absurd h7f (by simp [h]), fun _ => ⟨hcnt.symm, ?_⟩, ?_⟩
    · unfold groupPayloadStart
      rw [if_neg (by omega)]
    · unfold groupPayloadStart
      constructor
      · intro h
        by_contra hc
        rw [if_neg hc] at h
        exact absurd h (by norm_num)
      · intro h
        omega

/-- Witness for C3 at the concrete buffer `[0x80, 5]` (bit 7 set, count 5
from the extension byte, tag kind 0): the hypotheses hold and the theorem
applies. -/
theorem claim_C3_witness :
    [0x80, 5].get? 0 = some 0x80 ∧
    checkBufferTag [0x80, 5] 0 = some (5, 0) ∧
    (0 = 0x80 &&& 0x70 ∧
     (Nat.testBit 0x80 7 = true →
        5 = ((0x80 &&& 0x0f) <<< 8) ||| [0x80, 5].getD 1 0) ∧
     (Nat.testBit 0x80 7 = false → 5 = 0x80 &&& 0x0f ∧ groupPayloadStart 5 = 1) ∧
     (groupPayloadStart 5 = 2 ↔ 0x0f < 5)) :=
  ⟨rfl, rfl, claim_C3 [0x80, 5] 0 0x80 5 0 rfl rfl⟩

/-- Every label `_SLPToString` can produce is one of the six strings of
§4.2 (the unknown-tag fallback is `"Empty"`). -/
theorem SLPToString_label {tag : Nat} {buf : List Nat} {iid ind : Nat}
    {r : String × SLPValue × Nat} (h : SLPToString tag buf iid ind = some r) :
    r.1 ∈ slpKindLabels := by
  simp only [SLPToString] at h
  repeat' split at h
  all_goals
    first
      | exact Option.noConfusion h
      | (simp only [Option.map_eq_some'] at h
         obtain ⟨v, hv, rfl⟩ := h
         simp [slpKindLabels])
      | (simp only [Option.some.injEq] at h
         rw [← h]
         simp [slpKindLabels])

/-- A payload loop that runs at least once and succeeds ends with the label
of its last iteration, which is one of the six strings. -/
theorem SLPLoop_label : ∀ (n tag : Nat) (buf : List Nat) (iid ind : Nat)
    (t : Option String) (acc : List SLPValue) (r : Option String × List SLPValue),
    SLPLoop tag buf iid (n + 1) ind t acc = some r →
    r.1 ∈ slpKindLabels.map some := by
  intro n
  induction n with
  | zero =>
    intro tag buf iid ind t acc r h
    unfold SLPLoop at h
    cases hs : SLPToString tag buf iid ind with
    | none => rw [hs] at h; exact absurd h (by simp)
    | some x =>
      rw [hs] at h
      unfold SLPLoop at h
      simp only [Option.some.injEq] at h
      rw [← h]
      exact List.mem_map_of_mem some (SLPToString_label hs)
  | succ m ih =>
    intro tag buf iid ind t acc r h
    unfold SLPLoop at h
    cases hs : SLPToString tag buf iid ind with
    | none => rw [hs] at h; exact absurd h (by simp)
    | some x =>
      rw [hs] at h
      exact ih tag buf iid x.2.2 (some x.1) (acc ++ [x.2.1]) r h

/-- Claim C8, amended.  The three SLP accessors of both versions are
`taggedGroup` applications (`getArray = taggedGroup arrayBuffer
arrayBufferSize`, and likewise for `getObjKey`/`getObjValue`).  For every
successful group decode: when the element count is at least one the kind
label is one of the six strings `"String" | "Number" | "Integer" | "Null" |
"Boolean" | "Empty"`; but for a zero-count group the returned label is
Python's `None`, not a string (the original claim included zero-count
groups; see the counterexample). -/
theorem claim_C8 : ∀ (buf : List Nat) (size iid cnt tag : Nat)
    (r : Option String × List SLPValue),
    checkBufferTag buf iid = some (cnt, tag) →
    taggedGroup buf size iid = some r →
    (1 ≤ cnt → r.1 ∈ slpKindLabels.map some) ∧ (cnt = 0 → r.1 = none) := by
  intro buf size iid cnt tag r h1 h2
  unfold taggedGroup at h2
  split at h2
  · rw [h1] at h2
    simp only at h2
    constructor
    · intro hc
      obtain ⟨m, rfl⟩ : ∃ m, cnt = m + 1 := ⟨cnt - 1, by omega⟩
      exact SLPLoop_label m tag buf iid (groupPayloadStart (m + 1)) none [] r h2
    · intro hc
      subst hc
      unfold SLPLoop at h2
      simp only [Option.some.injEq] at h2
      rw [← h2]
  · exact Option.noConfusion h2

/-- Witness for C8 at the one-byte buffer `[0x11]` (TrueTag, count 1):
the decode succeeds with label `"Boolean"`. -/
theorem claim_C8_witness :
    checkBufferTag [0x11] 0 = some (1, TrueTag) ∧
    taggedGroup [0x11] 1 0 = some (some "Boolean", [SLPValue.boolean true]) ∧
    ((1 ≤ 1 → (some "Boolean", [SLPValue.boolean true]).1 ∈ slpKindLabels.map some) ∧
     ((1 : Nat) = 0 → (some "Boolean", [SLPValue.boolean true]).1 = none)) :=
  ⟨rfl, rfl,
   claim_C8 [0x11] 1 0 1 TrueTag (some "Boolean", [SLPValue.boolean true]) rfl rfl⟩

/-- Fixture: `baseObj` with a single 2-byte non-UTF16 string slot at offset 0 of the
4-byte storage. -/
def c10Obj : HBCObj :=
  { baseObj with stringTableEntries := [{ isUTF16 := false, offset := 0, length := 2 }] }

/-- Claim C10 (implicit).  For a non-UTF16 slot of resolved length `L`,
`setString` validates the CHARACTER count `len(value)` against `L`
(succeeding iff `len(value) ≤ L`), yet copies the full UTF-8 encoding
`value.encode("utf-8")` — all `len(encoding)` bytes — into `stringStorage`
at the slot offset.  With multi-byte characters the encoding can be longer
than `L`, so bytes beyond the slot are overwritten (see the witness, where
a 2-character value writes 4 bytes over a 2-byte slot). -/
theorem claim_C10 : ∀ (il : Nat) (o : HBCObj) (sid : Nat) (e : StringTableEntry)
    (off L : Nat) (v : List Nat),
    sid < o.header.stringCount →
    o.stringTableEntries.get? sid = some e →
    e.isUTF16 = false →
    resolveSlot il o e = some (off, L) →
    (v.length ≤ L →
       setStringCore il o sid v =
         some { o with stringStorage :=
                  memcpy o.stringStorage (utf8Encode v) off (utf8Encode v).length }) ∧
    (L < v.length → setStringCore il o sid v = none) := by
  intro il o sid e off L v hsid hget hu hres
  have hcore : setStringCore il o sid v =
      (if v.length ≤ L then
        some { o with stringStorage :=
                 memcpy o.stringStorage (utf8Encode v) off (utf8Encode v).length }
      else none) := by
    unfold setStringCore
    rw [if_pos hsid, hget]
    simp only
    rw [hres]
    simp only
    rw [hu]
    simp only [Bool.false_eq_true, if_false]
  constructor
  · intro hle
    rw [hcore, if_pos hle]
  · intro hgt
    rw [hcore, if_neg (by omega)]

/-- Witness for C10: on `c10Obj`'s 2-byte slot, the 2-character value
`"éé"` (code points `[233, 233]`) passes the length check, its 4-byte UTF-8
encoding `[195, 169, 195, 169]` is copied, and storage bytes 2 and 3 —
beyond the slot — are overwritten (they held `115, 116`). -/
theorem claim_C10_witness :
    (0 : Nat) < c10Obj.header.stringCount ∧
    c10Obj.stringTableEntries.get? 0 = some { isUTF16 := false, offset := 0, length := 2 } ∧
    resolveSlot 255 c10Obj { isUTF16 := false, offset := 0, length := 2 } = some (0, 2) ∧
    (utf8Encode [233, 233]).length = 4 ∧
    setStringCore 255 c10Obj 0 [233, 233] =
      some { c10Obj with stringStorage := memcpy c10Obj.stringStorage (utf8Encode [233, 233]) 0 (utf8Encode [233, 233]).length } ∧
    memcpy c10Obj.stringStorage (utf8Encode [233, 233]) 0 (utf8Encode [233, 233]).length =
      [195, 169, 195, 169] ∧
    c10Obj.stringStorage.getD 2 0 = 115 :=
  ⟨by decide, rfl, rfl, rfl,
   (claim_C10 255 c10Obj 0 { isUTF16 := false, offset := 0, length := 2 } 0 2 [233, 233]
      (by decide) rfl rfl rfl).1 (by decide),
   by decide, rfl⟩

/-- A `setFunction` call with a valid `fid` completes and equals its core. -/
theorem setFunction86_eq {o : HBCObj} {fid : Nat} {p : FuncPayload}
    {bc : List Nat} {fh : FunctionHeader}
    (hfid : fid < o.header.functionCount)
    (hget : o.functionHeaders.get? fid = some fh) :
    HBC86.setFunction o fid p bc =
      some (HBC86.setFunctionCore
        { o with functionHeaders := o.functionHeaders.set fid (paramUpdate fh p) }
        fid (paramUpdate fh p) bc) := by
  unfold HBC86.setFunction HBC86.setFunctionRun
  rw [if_pos hfid, hget]

/-- A `setFunction` call with a valid `fid` completes and equals its core. -/
theorem setFunction96_eq {o : HBCObj} {fid : Nat} {p : FuncPayload}
    {bc : List Nat} {fh : FunctionHeader}
    (hfid : fid < o.header.functionCount)
    (hget : o.functionHeaders.get? fid = some fh) :
    HBC96.setFunction o fid p bc =
      some (HBC96.setFunctionCore
        { o with functionHeaders := o.functionHeaders.set fid (paramUpdate fh p) }
        fid (paramUpdate fh p) bc) := by
  unfold HBC96.setFunction HBC96.setFunctionRun
  rw [if_pos hfid, hget]

/-- Setting index `i` twice keeps only the second write, and the element is
then read back when `i` is in range. -/
theorem get?_set_set {l : List FunctionHeader} {i : Nat} (a b : FunctionHeader)
    (hi : i < l.length) : ((l.set i a).set i b).get? i = some b := by
  rw [List.set_set, List.get?_eq_getElem?]
  exact List.getElem?_set_eq_of_lt b (by simpa using hi)

/-- The header that the overflow branch of `setFunction` (identical in
hbc86 and hbc96) produces, phrased over the pre-call header `fh` and
payload `p`. -/
def overflowResultHeader (fh : FunctionHeader) (p : FuncPayload) (n : Nat) :
    FunctionHeader :=
  { paramUpdate fh p with
    flags := (paramUpdate fh p).flags ||| 1 <<< 5
    small := smallAfterOverflow (paramUpdate fh p)
      (paramUpdate fh p).bytecodeSizeInBytes ((paramUpdate fh p).flags ||| 1 <<< 5)
    bytecodeSizeInBytes := n }

theorem newHeader86_overflow (fh : FunctionHeader) (p : FuncPayload) {n : Nat}
    (h : maxSmallSize < n) :
    HBC86.newHeader (paramUpdate fh p) n = overflowResultHeader fh p n := by
  unfold HBC86.newHeader overflowResultHeader
  rw [if_pos h]

theorem newHeader96_overflow (fh : FunctionHeader) (p : FuncPayload) {n : Nat}
    (h : maxSmallSize < n) :
    HBC96.newHeader (paramUpdate fh p) n = overflowResultHeader fh p n := by
  unfold HBC96.newHeader overflowResultHeader
  rw [if_pos h]

/-- Claim C2.  For both versions, an in-range `setFunction` whose bytecode
exceeds 32767 bytes sets bit 5 of `flags`, stores the full `len(bc)` in
`bytecodeSizeInBytes`, and — when no `small` record existed — creates one
as a snapshot of the current (already field-updated) header with
`bytecodeSizeInBytes = min(original, 32767)` and `flags` equal to the
updated flags. -/
theorem claim_C2 : ∀ (o : HBCObj) (fid : Nat) (p : FuncPayload) (bc : List Nat)
    (fh : FunctionHeader),
    fid < o.header.functionCount →
    o.functionHeaders.get? fid = some fh →
    maxSmallSize < bc.length →
    headerAfter (HBC86.setFunction o fid p bc) fid = some (overflowResultHeader fh p bc.length) ∧
    headerAfter (HBC96.setFunction o fid p bc) fid = some (overflowResultHeader fh p bc.length) ∧
    (overflowResultHeader fh p bc.length).flags.testBit 5 = true ∧
    (overflowResultHeader fh p bc.length).bytecodeSizeInBytes = bc.length ∧
    (overflowResultHeader fh p bc.length).flags = fh.flags ||| 1 <<< 5 ∧
    (fh.small = none →
      (overflowResultHeader fh p bc.length).small = some
        { offset := fh.offset, paramCount := p.paramCount,
          bytecodeSizeInBytes := min fh.bytecodeSizeInBytes maxSmallSize,
          functionName := fh.functionName, infoOffset := fh.infoOffset,
          frameSize := p.registerCount, environmentSize := p.symbolCount,
          highestReadCacheIndex := fh.highestReadCacheIndex,
          highestWriteCacheIndex := fh.highestWriteCacheIndex,
          flags := fh.flags ||| 1 <<< 5 }) := by
  intro o fid p bc fh hfid hget hlen
  have hi : fid < o.functionHeaders.length := by
    rw [List.get?_eq_getElem?] at hget
    exact (List.getElem?_eq_some_iff.mp hget).1
  refine ⟨?_, ?_, testBit5_lor _, rfl, rfl, ?_⟩
  · rw [setFunction86_eq hfid hget]
    show ((o.functionHeaders.set fid (paramUpdate fh p)).set fid
        (HBC86.newHeader (paramUpdate fh p) bc.length)).get? fid =
      some (overflowResultHeader fh p bc.length)
    rw [get?_set_set _ _ hi, newHeader86_overflow fh p hlen]
  · rw [setFunction96_eq hfid hget]
    show ((o.functionHeaders.set fid (paramUpdate fh p)).set fid
        (HBC96.newHeader (paramUpdate fh p) bc.length)).get? fid =
      some (overflowResultHeader fh p bc.length)
    rw [get?_set_set _ _ hi, newHeader96_overflow fh p hlen]
  · intro hsmall
    unfold overflowResultHeader smallAfterOverflow
    have h0 : (paramUpdate fh p).small = none := hsmall
    rw [h0]
    rfl

/-- Witness for C2: on the minimal container, a 32768-byte bytecode
overflows and the theorem applies at `fid = 0`. -/
theorem claim_C2_witness :
    (0 : Nat) < baseObj.header.functionCount ∧
    baseObj.functionHeaders.get? 0 = some baseFH ∧
    maxSmallSize < (List.replicate 32768 (0x88 : Nat)).length ∧
    headerAfter (HBC86.setFunction baseObj 0 ⟨"f", 4, 5, 6⟩ (List.replicate 32768 (0x88 : Nat))) 0 =
      some (overflowResultHeader baseFH ⟨"f", 4, 5, 6⟩ (List.replicate 32768 (0x88 : Nat)).length) ∧
    headerAfter (HBC96.setFunction baseObj 0 ⟨"f", 4, 5, 6⟩ (List.replicate 32768 (0x88 : Nat))) 0 =
      some (overflowResultHeader baseFH ⟨"f", 4, 5, 6⟩ (List.replicate 32768 (0x88 : Nat)).length) := by
  have h1 : (0 : Nat) < baseObj.header.functionCount := by decide
  have h2 : baseObj.functionHeaders.get? 0 = some baseFH := rfl
  have h3 : maxSmallSize < (List.replicate 32768 (0x88 : Nat)).length := by
    rw [List.length_replicate]
    decide
  obtain ⟨c86, c96, -, -, -, -⟩ :=
    claim_C2 baseObj 0 ⟨"f", 4, 5, 6⟩ (List.replicate 32768 (0x88 : Nat)) baseFH h1 h2 h3
  exact ⟨h1, h2, h3, c86, c96⟩

/-- Inversion of a completed hbc86 `setFunction`. -/
theorem setFunction86_inv {o o' : HBCObj} {fid : Nat} {p : FuncPayload}
    {bc : List Nat} (h : HBC86.setFunction o fid p bc = some o') :
    ∃ fh, fid < o.header.functionCount ∧ o.functionHeaders.get? fid = some fh ∧
      o' = HBC86.setFunctionCore
        { o with functionHeaders := o.functionHeaders.set fid (paramUpdate fh p) }
        fid (paramUpdate fh p) bc := by
  by_cases hfid : fid < o.header.functionCount
  · cases hget : o.functionHeaders.get? fid with
    | none =>
      unfold HBC86.setFunction HBC86.setFunctionRun at h
      rw [if_pos hfid, hget] at h
      exact Option.noConfusion h
    | some fh =>
      rw [setFunction86_eq hfid hget] at h
      simp only [Option.some.injEq] at h
      exact ⟨fh, hfid, rfl, h.symm⟩
  · unfold HBC86.setFunction HBC86.setFunctionRun at h
    rw [if_neg hfid] at h
    exact Option.noConfusion h

/-- Inversion of a completed hbc96 `setFunction`. -/
theorem setFunction96_inv {o o' : HBCObj} {fid : Nat} {p : FuncPayload}
    {bc : List Nat} (h : HBC96.setFunction o fid p bc = some o') :
    ∃ fh, fid < o.header.functionCount ∧ o.functionHeaders.get? fid = some fh ∧
      o' = HBC96.setFunctionCore
        { o with functionHeaders := o.functionHeaders.set fid (paramUpdate fh p) }
        fid (paramUpdate fh p) bc := by
  by_cases hfid : fid < o.header.functionCount
  · cases hget : o.functionHeaders.get? fid with
    | none =>
      unfold HBC96.setFunction HBC96.setFunctionRun at h
      rw [if_pos hfid, hget] at h
      exact Option.noConfusion h
    | some fh =>
      rw [setFunction96_eq hfid hget] at h
      simp only [Option.some.injEq] at h
      exact ⟨fh, hfid, rfl, h.symm⟩
  · unfold HBC96.setFunction HBC96.setFunctionRun at h
    rw [if_neg hfid] at h
    exact Option.noConfusion h

/-- Every field of the header other than `bytecodeSizeInBytes`, `flags`
and `small` survives the hbc86 size/overflow logic. -/
theorem newHeader86_preserve (fh1 : FunctionHeader) (n : Nat) :
    (HBC86.newHeader fh1 n).offset = fh1.offset ∧
    (HBC86.newHeader fh1 n).paramCount = fh1.paramCount ∧
    (HBC86.newHeader fh1 n).frameSize = fh1.frameSize ∧
    (HBC86.newHeader fh1 n).environmentSize = fh1.environmentSize ∧
    (HBC86.newHeader fh1 n).functionName = fh1.functionName ∧
    (HBC86.newHeader fh1 n).infoOffset = fh1.infoOffset ∧
    (HBC86.newHeader fh1 n).highestReadCacheIndex = fh1.highestReadCacheIndex ∧
    (HBC86.newHeader fh1 n).highestWriteCacheIndex = fh1.highestWriteCacheIndex := by
  simp only [HBC86.newHeader]
  split
  · exact ⟨rfl, rfl, rfl, rfl, rfl, rfl, rfl, rfl⟩
  · split
    · exact ⟨rfl, rfl, rfl, rfl, rfl, rfl, rfl, rfl⟩
    · exact ⟨rfl, rfl, rfl, rfl, rfl, rfl, rfl, rfl⟩

/-- Every field of the header other than `bytecodeSizeInBytes`, `flags`
and `small` survives the hbc96 size/overflow logic. -/
theorem newHeader96_preserve (fh1 : FunctionHeader) (n : Nat) :
    (HBC96.newHeader fh1 n).offset = fh1.offset ∧
    (HBC96.newHeader fh1 n).paramCount = fh1.paramCount ∧
    (HBC96.newHeader fh1 n).frameSize = fh1.frameSize ∧
    (HBC96.newHeader fh1 n).environmentSize = fh1.environmentSize ∧
    (HBC96.newHeader fh1 n).functionName = fh1.functionName ∧
    (HBC96.newHeader fh1 n).infoOffset = fh1.infoOffset ∧
    (HBC96.newHeader fh1 n).highestReadCacheIndex = fh1.highestReadCacheIndex ∧
    (HBC96.newHeader fh1 n).highestWriteCacheIndex = fh1.highestWriteCacheIndex := by
  simp only [HBC96.newHeader]
  split
  · exact ⟨rfl, rfl, rfl, rfl, rfl, rfl, rfl, rfl⟩
  · exact ⟨rfl, rfl, rfl, rfl, rfl, rfl, rfl, rfl⟩

/-- Claim C7.  A completed `setFunction` of either version ignores the
`name` parameter (the edited header's `functionName` is unchanged), leaves
every other function header (`eraseIdx fid` removes only entry `fid`), the
file header, the string table (main and overflow) and the string storage
untouched, and never shrinks the instruction buffer. -/
theorem claim_C7 : ∀ (o : HBCObj) (fid : Nat) (p : FuncPayload) (bc : List Nat)
    (o' : HBCObj),
    (HBC86.setFunction o fid p bc = some o' ∨ HBC96.setFunction o fid p bc = some o') →
    o'.header = o.header ∧
    (o'.functionHeaders.get? fid).map FunctionHeader.functionName =
      (o.functionHeaders.get? fid).map FunctionHeader.functionName ∧
    o'.functionHeaders.eraseIdx fid = o.functionHeaders.eraseIdx fid ∧
    o'.stringTableEntries = o.stringTableEntries ∧
    o'.stringTableOverflowEntries = o.stringTableOverflowEntries ∧
    o'.stringStorage = o.stringStorage ∧
    o.inst.length ≤ o'.inst.length := by
  intro o fid p bc o' h
  rcases h with h | h
  · obtain ⟨fh, hfid, hget, rfl⟩ := setFunction86_inv h
    have hi : fid < o.functionHeaders.length := by
      rw [List.get?_eq_getElem?] at hget
      exact (List.getElem?_eq_some_iff.mp hget).1
    refine ⟨rfl, ?_, ?_, rfl, rfl, rfl, ?_⟩
    · show (((o.functionHeaders.set fid (paramUpdate fh p)).set fid
          (HBC86.newHeader (paramUpdate fh p) bc.length)).get? fid).map
          FunctionHeader.functionName = _
      rw [get?_set_set _ _ hi, hget]
      simp only [Option.map_some']
      rw [(newHeader86_preserve (paramUpdate fh p) bc.length).2.2.2.2.1]
      rfl
    · show ((o.functionHeaders.set fid (paramUpdate fh p)).set fid
          (HBC86.newHeader (paramUpdate fh p) bc.length)).eraseIdx fid = _
      rw [List.set_set, eraseIdx_set]
    · show o.inst.length ≤ (memcpy
          (if o.inst.length < (paramUpdate fh p).offset - o.instOffset + bc.length then
            o.inst ++ List.replicate
              ((paramUpdate fh p).offset - o.instOffset + bc.length - o.inst.length) 0
          else o.inst)
          bc ((paramUpdate fh p).offset - o.instOffset) bc.length).length
      rw [length_memcpy]
      refine le_trans ?_ (le_max_left _ _)
      split
      · simp
      · exact le_refl _
  · obtain ⟨fh, hfid, hget, rfl⟩ := setFunction96_inv h
    have hi : fid < o.functionHeaders.length := by
      rw [List.get?_eq_getElem?] at hget
      exact (List.getElem?_eq_some_iff.mp hget).1
    refine ⟨rfl, ?_, ?_, rfl, rfl, rfl, ?_⟩
    · show (((o.functionHeaders.set fid (paramUpdate fh p)).set fid
          (HBC96.newHeader (paramUpdate fh p) bc.length)).get? fid).map
          FunctionHeader.functionName = _
      rw [get?_set_set _ _ hi, hget]
      simp only [Option.map_some']
      rw [(newHeader96_preserve (paramUpdate fh p) bc.length).2.2.2.2.1]
      rfl
    · show ((o.functionHeaders.set fid (paramUpdate fh p)).set fid
          (HBC96.newHeader (paramUpdate fh p) bc.length)).eraseIdx fid = _
      rw [List.set_set, eraseIdx_set]
    · show o.inst.length ≤ (memcpy
          (if (paramUpdate fh p).bytecodeSizeInBytes < bc.length then
            (if o.inst.length < (paramUpdate fh p).offset - o.instOffset + bc.length then
              o.inst ++ List.replicate
                ((paramUpdate fh p).offset - o.instOffset + bc.length - o.inst.length) 0
            else o.inst)
          else o.inst)
          bc ((paramUpdate fh p).offset - o.instOffset) bc.length).length
      rw [length_memcpy]
      refine le_trans ?_ (le_max_left _ _)
      split
      · split
        · simp
        · exact le_refl _
      · exact le_refl _

/-- The container a completed `setFunction baseObj 0 ⟨"g",1,2,3⟩ [7]` call
produces (either version: no overflow is involved and the cleared flags
equal the original zero flags). -/
def c7Res : HBCObj :=
  { baseObj with
    functionHeaders :=
      [{ baseFH with paramCount := 1, frameSize := 2, environmentSize := 3, bytecodeSizeInBytes := 1 }]
    inst := [7] }

/-- Witness for C7 at a concrete call on the minimal container. -/
theorem claim_C7_witness :
    c7Res.header = baseObj.header ∧
    (c7Res.functionHeaders.get? 0).map FunctionHeader.functionName =
      (baseObj.functionHeaders.get? 0).map FunctionHeader.functionName ∧
    c7Res.functionHeaders.eraseIdx 0 = baseObj.functionHeaders.eraseIdx 0 ∧
    c7Res.stringTableEntries = baseObj.stringTableEntries ∧
    c7Res.stringTableOverflowEntries = baseObj.stringTableOverflowEntries ∧
    c7Res.stringStorage = baseObj.stringStorage ∧
    baseObj.inst.length ≤ c7Res.inst.length :=
  claim_C7 baseObj 0 ⟨"g", 1, 2, 3⟩ [7] c7Res (Or.inl (by decide))

/-- A header looked up in a container satisfying the invariant satisfies
the per-header invariant. -/
theorem inv_lookup {o : HBCObj} {fid : Nat} {fh : FunctionHeader}
    (h : InvB o = true) (hget : o.functionHeaders.get? fid = some fh) :
    headerInvB fh = true := by
  unfold InvB at h
  rw [List.all_eq_true] at h
  exact h fh (List.get?_mem hget)

/-- The `paramCount`/`frameSize`/`environmentSize` updates do not touch
`flags` or `small`. -/
theorem headerInvB_paramUpdate (fh : FunctionHeader) (p : FuncPayload) :
    headerInvB (paramUpdate fh p) = headerInvB fh := rfl

/-- The hbc86 size/overflow logic preserves the per-header invariant. -/
theorem inv_newHeader86 {fh1 : FunctionHeader} (h : headerInvB fh1 = true)
    (n : Nat) : headerInvB (HBC86.newHeader fh1 n) = true := by
  unfold headerInvB at h
  rw [Bool.and_eq_true] at h
  obtain ⟨h1, h2⟩ := h
  rw [beq_iff_eq] at h1
  simp only [HBC86.newHeader]
  split
  · rename_i hlt
    cases hsm : fh1.small with
    | none =>
      unfold headerInvB smallAfterOverflow
      rw [hsm]
      simp only [Option.isSome_some, testBit5_lor, beq_self_eq_true, Bool.true_and,
        decide_eq_true_eq, Bool.and_eq_true, beq_iff_eq]
      exact ⟨Nat.min_le_right _ _, trivial⟩
    | some sm =>
      have hs5 : fh1.flags.testBit 5 = true := by
        rw [h1, hsm]
        rfl
      have hfl : fh1.flags ||| 1 <<< 5 = fh1.flags := lor32_of_testBit hs5
      rw [hsm] at h2
      simp only [decide_eq_true_eq, Bool.and_eq_true, beq_iff_eq] at h2
      unfold headerInvB smallAfterOverflow
      rw [hsm]
      simp only [hfl, hs5, Option.isSome_some, beq_self_eq_true, Bool.true_and,
        decide_eq_true_eq, Bool.and_eq_true, beq_iff_eq]
      exact h2
  · rename_i hnlt
    split
    · unfold headerInvB
      have hns : (if fh1.small.isSome ∧ n ≤ maxSmallSize then none else fh1.small) = none := by
        cases hsm : fh1.small with
        | none => simp
        | some sm => simp [Nat.not_lt.mp hnlt]
      rw [hns]
      simp [clearBit5_testBit]
    · rename_i hcond
      exfalso
      push_neg at hcond
      have hle := Nat.not_lt.mp hnlt
      omega

/-- The hbc96 size/overflow logic preserves the per-header invariant (the
non-overflow branch changes only `bytecodeSizeInBytes`). -/
theorem inv_newHeader96 {fh1 : FunctionHeader} (h : headerInvB fh1 = true)
    (n : Nat) : headerInvB (HBC96.newHeader fh1 n) = true := by
  unfold headerInvB at h
  rw [Bool.and_eq_true] at h
  obtain ⟨h1, h2⟩ := h
  rw [beq_iff_eq] at h1
  simp only [HBC96.newHeader]
  split
  · rename_i hlt
    cases hsm : fh1.small with
    | none =>
      unfold headerInvB smallAfterOverflow
      rw [hsm]
      simp only [Option.isSome_some, testBit5_lor, beq_self_eq_true, Bool.true_and,
        decide_eq_true_eq, Bool.and_eq_true, beq_iff_eq]
      exact ⟨Nat.min_le_right _ _, trivial⟩
    | some sm =>
      have hs5 : fh1.flags.testBit 5 = true := by
        rw [h1, hsm]
        rfl
      have hfl : fh1.flags ||| 1 <<< 5 = fh1.flags := lor32_of_testBit hs5
      rw [hsm] at h2
      simp only [decide_eq_true_eq, Bool.and_eq_true, beq_iff_eq] at h2
      unfold headerInvB smallAfterOverflow
      rw [hsm]
      simp only [hfl, hs5, Option.isSome_some, beq_self_eq_true, Bool.true_and,
        decide_eq_true_eq, Bool.and_eq_true, beq_iff_eq]
      exact h2
  · unfold headerInvB
    cases hsm : fh1.small with
    | none =>
      rw [hsm] at h1
      simp only [Option.isSome_none] at h1
      simp [h1]
    | some sm =>
      rw [hsm] at h1 h2
      simp only [Option.isSome_some] at h1
      simp only [decide_eq_true_eq, Bool.and_eq_true, beq_iff_eq] at h2
      simp only [h1, Option.isSome_some, beq_self_eq_true, Bool.true_and,
        decide_eq_true_eq, Bool.and_eq_true, beq_iff_eq]
      exact h2

/-- The mutator `setString` never touches the function headers: its only state change
is the final `memcpy` into `stringStorage`. -/
theorem setStringCore_functionHeaders {il : Nat} {o o' : HBCObj} {sid : Nat}
    {v : List Nat} (h : setStringCore il o sid v = some o') :
    o'.functionHeaders = o.functionHeaders := by
  unfold setStringCore at h
  split at h
  case isFalse => exact Option.noConfusion h
  case isTrue =>
    cases hget : o.stringTableEntries.get? sid with
    | none =>
      rw [hget] at h
      exact Option.noConfusion h
    | some e =>
      rw [hget] at h
      simp only at h
      cases hres : resolveSlot il o e with
      | none =>
        rw [hres] at h
        exact Option.noConfusion h
      | some pr =>
        obtain ⟨off, len⟩ := pr
        rw [hres] at h
        simp only at h
        split at h
        · exact Option.noConfusion h
        · split at h
          · simp only [Option.some.injEq] at h
            rw [← h]
          · exact Option.noConfusion h

/-- One hbc86 mutator step preserves the container invariant, including
steps that fail partway (a raising `assemble` has only performed the
`paramUpdate`, which leaves `flags`/`small` alone). -/
theorem inv_step86 (il : Nat) (o : HBCObj) (op : Op) (h : InvB o = true) :
    InvB (HBC86.step il o op) = true := by
  cases op with
  | setStr sid v =>
    simp only [HBC86.step, HBC86.setString]
    cases hc : setStringCore il o sid v with
    | none => simpa using h
    | some o' =>
      have hfh := setStringCore_functionHeaders hc
      simp only [Option.getD_some]
      unfold InvB at h ⊢
      rw [hfh]
      exact h
  | setFunc fid p asm =>
    simp only [HBC86.step]
    unfold HBC86.setFunctionRun
    by_cases hfid : fid < o.header.functionCount
    · rw [if_pos hfid]
      cases hget : o.functionHeaders.get? fid with
      | none => exact h
      | some fh =>
        have hinv : headerInvB fh = true := inv_lookup h hget
        cases asm with
        | none =>
          show InvB { o with functionHeaders := o.functionHeaders.set fid (paramUpdate fh p) } = true
          unfold InvB
          exact all_set fid h (by rw [headerInvB_paramUpdate]; exact hinv)
        | some bc =>
          show InvB (HBC86.setFunctionCore
            { o with functionHeaders := o.functionHeaders.set fid (paramUpdate fh p) }
            fid (paramUpdate fh p) bc) = true
          unfold InvB HBC86.setFunctionCore
          show ((o.functionHeaders.set fid (paramUpdate fh p)).set fid
            (HBC86.newHeader (paramUpdate fh p) bc.length)).all headerInvB = true
          rw [List.set_set]
          exact all_set fid h
            (inv_newHeader86 (by rw [headerInvB_paramUpdate]; exact hinv) bc.length)
    · rw [if_neg hfid]
      exact h

/-- One hbc96 mutator step preserves the container invariant. -/
theorem inv_step96 (il : Nat) (o : HBCObj) (op : Op) (h : InvB o = true) :
    InvB (HBC96.step il o op) = true := by
  cases op with
  | setStr sid v =>
    simp only [HBC96.step, HBC96.setString]
    cases hc : setStringCore il o sid v with
    | none => simpa using h
    | some o' =>
      have hfh := setStringCore_functionHeaders hc
      simp only [Option.getD_some]
      unfold InvB at h ⊢
      rw [hfh]
      exact h
  | setFunc fid p asm =>
    simp only [HBC96.step]
    unfold HBC96.setFunctionRun
    by_cases hfid : fid < o.header.functionCount
    · rw [if_pos hfid]
      cases hget : o.functionHeaders.get? fid with
      | none => exact h
      | some fh =>
        have hinv : headerInvB fh = true := inv_lookup h hget
        cases asm with
        | none =>
          show InvB { o with functionHeaders := o.functionHeaders.set fid (paramUpdate fh p) } = true
          unfold InvB
          exact all_set fid h (by rw [headerInvB_paramUpdate]; exact hinv)
        | some bc =>
          show InvB (HBC96.setFunctionCore
            { o with functionHeaders := o.functionHeaders.set fid (paramUpdate fh p) }
            fid (paramUpdate fh p) bc) = true
          unfold InvB HBC96.setFunctionCore
          show ((o.functionHeaders.set fid (paramUpdate fh p)).set fid
            (HBC96.newHeader (paramUpdate fh p) bc.length)).all headerInvB = true
          rw [List.set_set]
          exact all_set fid h
            (inv_newHeader96 (by rw [headerInvB_paramUpdate]; exact hinv) bc.length)
    · rw [if_neg hfid]
      exact h

/-- Claim C4.  From any container satisfying the overflow invariant, every
sequence of `setFunction` / `setString` calls (with arbitrary payloads,
including failing assembles) keeps it: bit 5 of `flags_i` is set iff the
`small` sub-record is present in header `i`, and a present `small` has
`bytecodeSizeInBytes ≤ 32767` and `flags` equal to the header's `flags`.
Holds for hbc86 and hbc96 alike: hbc96's non-overflow branch leaves a stale
overflow state in place, which still satisfies the invariant. -/
theorem claim_C4 : ∀ (il : Nat) (ops : List Op) (o : HBCObj),
    InvB o = true →
    InvB (ops.foldl (HBC86.step il) o) = true ∧
    InvB (ops.foldl (HBC96.step il) o) = true := by
  intro il ops
  induction ops with
  | nil =>
    intro o h
    exact ⟨h, h⟩
  | cons op rest ih =>
    intro o h
    simp only [List.foldl_cons]
    exact ⟨(ih _ (inv_step86 il o op h)).1, (ih _ (inv_step96 il o op h)).2⟩

/-- Witness for C4: a concrete two-step sequence (an in-range `setFunction`
and a `setString`) from the minimal container, which satisfies the
invariant. -/
theorem claim_C4_witness :
    InvB baseObj = true ∧
    InvB ([Op.setFunc 0 ⟨"f", 1, 1, 1⟩ (some [1, 2]), Op.setStr 0 [97]].foldl
      (HBC86.step 255) baseObj) = true ∧
    InvB ([Op.setFunc 0 ⟨"f", 1, 1, 1⟩ (some [1, 2]), Op.setStr 0 [97]].foldl
      (HBC96.step 255) baseObj) = true :=
  ⟨by decide,
   (claim_C4 255 [Op.setFunc 0 ⟨"f", 1, 1, 1⟩ (some [1, 2]), Op.setStr 0 [97]]
      baseObj (by decide)).1,
   (claim_C4 255 [Op.setFunc 0 ⟨"f", 1, 1, 1⟩ (some [1, 2]), Op.setStr 0 [97]]
      baseObj (by decide)).2⟩

/-- Re-applying the field updates with the same payload is the identity once
they are already in place. -/
theorem paramUpdate_self (fh : FunctionHeader) (p : FuncPayload)
    (h1 : fh.paramCount = p.paramCount) (h2 : fh.frameSize = p.registerCount)
    (h3 : fh.environmentSize = p.symbolCount) : paramUpdate fh p = fh := by
  obtain ⟨o1, pc, fs, es, bs, fn, io, hr, hw, fl, sm⟩ := fh
  simp only [paramUpdate]
  simp_all

/-- The hbc86 size/overflow logic is idempotent at a fixed new size. -/
theorem newHeader86_idem (fh1 : FunctionHeader) (n : Nat) :
    HBC86.newHeader (HBC86.newHeader fh1 n) n = HBC86.newHeader fh1 n := by
  obtain ⟨o1, pc, fs, es, bs, fn, io, hr, hw, fl, sm⟩ := fh1
  by_cases hlt : maxSmallSize < n
  · cases sm with
    | none =>
      simp [HBC86.newHeader, smallAfterOverflow, hlt, lor32_lor32, lor32_twice]
    | some s =>
      simp [HBC86.newHeader, smallAfterOverflow, hlt, lor32_lor32, lor32_twice]
  · have hn : n ≤ maxSmallSize := Nat.not_lt.mp hlt
    by_cases hc : n ≤ bs ∨ bs ≤ maxSmallSize
    · cases sm with
      | none =>
        simp [HBC86.newHeader, hlt, hc, hn, clearBit5_idem]
      | some s =>
        simp [HBC86.newHeader, hlt, hc, hn, clearBit5_idem]
    · exfalso
      push_neg at hc
      omega

/-- The hbc96 size/overflow logic is idempotent at a fixed new size. -/
theorem newHeader96_idem (fh1 : FunctionHeader) (n : Nat) :
    HBC96.newHeader (HBC96.newHeader fh1 n) n = HBC96.newHeader fh1 n := by
  obtain ⟨o1, pc, fs, es, bs, fn, io, hr, hw, fl, sm⟩ := fh1
  by_cases hlt : maxSmallSize < n
  · cases sm with
    | none =>
      simp [HBC96.newHeader, smallAfterOverflow, hlt, lor32_lor32, lor32_twice]
    | some s =>
      simp [HBC96.newHeader, smallAfterOverflow, hlt, lor32_lor32, lor32_twice]
  · simp [HBC96.newHeader, hlt]

/-- Field `bytecodeSizeInBytes` is set to the new size in every branch. -/
theorem newHeader96_size (fh1 : FunctionHeader) (n : Nat) :
    (HBC96.newHeader fh1 n).bytecodeSizeInBytes = n := by
  simp only [HBC96.newHeader]
  split
  · rfl
  · rfl

/-- Re-running the extend-then-copy step of hbc86's `setFunction` over its
own output is the identity: the buffer already covers the write. -/
theorem memcpy_step_idem (d bc : List Nat) (st : Nat) :
    memcpy (if (memcpy d bc st bc.length).length < st + bc.length then
        memcpy d bc st bc.length ++
          List.replicate (st + bc.length - (memcpy d bc st bc.length).length) 0
      else memcpy d bc st bc.length) bc st bc.length =
    memcpy d bc st bc.length := by
  have hlen : ¬ (memcpy d bc st bc.length).length < st + bc.length := by
    rw [length_memcpy]
    have := le_max_right d.length (st + bc.length)
    omega
  rw [if_neg hlen, memcpy_idem]

/-- A completed hbc86 `setFunction` is idempotent. -/
theorem setFunction86_idem {o o' : HBCObj} {fid : Nat} {p : FuncPayload}
    {bc : List Nat} (h : HBC86.setFunction o fid p bc = some o') :
    HBC86.setFunction o' fid p bc = some o' := by
  obtain ⟨fh, hfid, hget, rfl⟩ := setFunction86_inv h
  have hi : fid < o.functionHeaders.length := by
    rw [List.get?_eq_getElem?] at hget
    exact (List.getElem?_eq_some_iff.mp hget).1
  have hprev := newHeader86_preserve (paramUpdate fh p) bc.length
  have hget' : (HBC86.setFunctionCore
      { o with functionHeaders := o.functionHeaders.set fid (paramUpdate fh p) }
      fid (paramUpdate fh p) bc).functionHeaders.get? fid =
      some (HBC86.newHeader (paramUpdate fh p) bc.length) := by
    show ((o.functionHeaders.set fid (paramUpdate fh p)).set fid
      (HBC86.newHeader (paramUpdate fh p) bc.length)).get? fid = _
    exact get?_set_set _ _ hi
  have hpu : paramUpdate (HBC86.newHeader (paramUpdate fh p) bc.length) p =
      HBC86.newHeader (paramUpdate fh p) bc.length :=
    paramUpdate_self _ p (by rw [hprev.2.1]; rfl) (by rw [hprev.2.2.1]; rfl)
      (by rw [hprev.2.2.2.1]; rfl)
  have hfid' : fid < (HBC86.setFunctionCore
      { o with functionHeaders := o.functionHeaders.set fid (paramUpdate fh p) }
      fid (paramUpdate fh p) bc).header.functionCount := hfid
  rw [setFunction86_eq hfid' hget', hpu]
  congr 1
  unfold HBC86.setFunctionCore
  simp only [HBCObj.mk.injEq]
  refine ⟨trivial, ?_, trivial, trivial, trivial, trivial, ?_, trivial, trivial, trivial⟩
  · simp only [newHeader86_idem, List.set_set]
  · rw [hprev.1]
    exact memcpy_step_idem _ bc _

/-- A completed hbc96 `setFunction` is idempotent. -/
theorem setFunction96_idem {o o' : HBCObj} {fid : Nat} {p : FuncPayload}
    {bc : List Nat} (h : HBC96.setFunction o fid p bc = some o') :
    HBC96.setFunction o' fid p bc = some o' := by
  obtain ⟨fh, hfid, hget, rfl⟩ := setFunction96_inv h
  have hi : fid < o.functionHeaders.length := by
    rw [List.get?_eq_getElem?] at hget
    exact (List.getElem?_eq_some_iff.mp hget).1
  have hprev := newHeader96_preserve (paramUpdate fh p) bc.length
  have hget' : (HBC96.setFunctionCore
      { o with functionHeaders := o.functionHeaders.set fid (paramUpdate fh p) }
      fid (paramUpdate fh p) bc).functionHeaders.get? fid =
      some (HBC96.newHeader (paramUpdate fh p) bc.length) := by
    show ((o.functionHeaders.set fid (paramUpdate fh p)).set fid
      (HBC96.newHeader (paramUpdate fh p) bc.length)).get? fid = _
    exact get?_set_set _ _ hi
  have hpu : paramUpdate (HBC96.newHeader (paramUpdate fh p) bc.length) p =
      HBC96.newHeader (paramUpdate fh p) bc.length :=
    paramUpdate_self _ p (by rw [hprev.2.1]; rfl) (by rw [hprev.2.2.1]; rfl)
      (by rw [hprev.2.2.2.1]; rfl)
  have hfid' : fid < (HBC96.setFunctionCore
      { o with functionHeaders := o.functionHeaders.set fid (paramUpdate fh p) }
      fid (paramUpdate fh p) bc).header.functionCount := hfid
  rw [setFunction96_eq hfid' hget', hpu]
  congr 1
  unfold HBC96.setFunctionCore
  simp only [HBCObj.mk.injEq]
  refine ⟨trivial, ?_, trivial, trivial, trivial, trivial, ?_, trivial, trivial, trivial⟩
  · simp only [newHeader96_idem, List.set_set]
  · rw [hprev.1, newHeader96_size]
    rw [if_neg (lt_irrefl bc.length)]
    exact memcpy_idem _ bc _ _

/-- Claim C9.  For both versions, running the same `setFunction` call twice
(same `fid`, payload and assembled bytecode) leaves the container exactly
as after one call, from any starting state in which the first call
completes — including starting states where the first call enters or
leaves the overflowed form. -/
theorem claim_C9 : ∀ (o : HBCObj) (fid : Nat) (p : FuncPayload) (bc : List Nat)
    (o' : HBCObj),
    (HBC86.setFunction o fid p bc = some o' → HBC86.setFunction o' fid p bc = some o') ∧
    (HBC96.setFunction o fid p bc = some o' → HBC96.setFunction o' fid p bc = some o') :=
  fun _ _ _ _ _ => ⟨setFunction86_idem, setFunction96_idem⟩

/-- Witness for C9 at a concrete call: repeating
`setFunction c7Res 0 ⟨"g",1,2,3⟩ [7]` returns `c7Res` itself (for both
versions `c7Res` is the state after the first call from `baseObj`). -/
theorem claim_C9_witness :
    HBC86.setFunction c7Res 0 ⟨"g", 1, 2, 3⟩ [7] = some c7Res ∧
    HBC96.setFunction c7Res 0 ⟨"g", 1, 2, 3⟩ [7] = some c7Res :=
  ⟨(claim_C9 baseObj 0 ⟨"g", 1, 2, 3⟩ [7] c7Res).1 (by decide),
   (claim_C9 baseObj 0 ⟨"g", 1, 2, 3⟩ [7] c7Res).2 (by decide)⟩

end HBCTool
